import Mathlib

/-!
Verification of the dirmon directory-watch classifier (src/main.rs).

The embedding models:
* Rust `Path`/`PathBuf` values as their normalized component sequences
  (`DirectoryPath`), following the documented normalization of
  `std::path::Components`: empty and interior `.` components are dropped,
  a leading `.` component is kept, a leading `/` yields a root component.
  Rust `Path` equality and hashing are component-wise, so equality of
  `DirectoryPath` values is exactly Rust path equality.
* the filesystem snapshot seen by `path.is_dir()` and by the `walkdir`
  traversal as a rose tree (`FsEntry`), with an `unreadable` variant for
  entries whose traversal yields an `Err` that `filter_map(|e| e.ok())`
  drops; symbolic links are resolved away by `follow_links(true)`, so the
  tree is the link-resolved view.
* `find_moved_directory` as the pre-order walk (root entry first, exactly
  as `WalkDir` yields the search root itself first) filtered by
  `is_dir && file_name == dir_name`, returning the first hit's path.
* the body of the event loop in `main` as pure step functions
  (`processCreatePath`, `processRemovePath`, `processEvent`, `runLoop`)
  over the `known_directories` set (a `Finset DirectoryPath`, matching
  `HashSet<PathBuf>`), with emitted log lines modelled as `ClassifiedEvent`
  values.
-/

namespace Dirmon

/-- One Rust `std::path::Component` (POSIX view: no Windows prefix). -/
inductive Component where
  | rootDir : Component
  | curDir : Component
  | parentDir : Component
  | normal (s : String) : Component
deriving DecidableEq, Repr

/-- A path, as its normalized component sequence (Rust compares paths
component-wise, so this carries exactly the identity of a `PathBuf`). -/
abbrev DirectoryPath := List Component

/-- The watch root, `Path::new("./")`: components `[CurDir]`. -/
def watchPath : DirectoryPath := [Component.curDir]

/-- The noise placeholder `Path::new("./New folder")`. -/
def noisePath : DirectoryPath := [Component.curDir, Component.normal "New folder"]

/-- Rust `Path::parent`: the path without its final component; `None` for
the empty path and for a bare root. -/
def parent : DirectoryPath → Option DirectoryPath
  | [] => none
  | [Component.rootDir] => none
  | p => some p.dropLast

/-- Rust `Path::file_name`: the final component when it is a normal
component, `None` otherwise (root, `.`, `..`, empty). -/
def fileName (p : DirectoryPath) : Option String :=
  match p.getLast? with
  | some (Component.normal s) => some s
  | _ => none

/-- `path.file_name().unwrap_or_default().to_string_lossy().to_string()`:
the base name, with the empty string as the `unwrap_or_default` default. -/
def dirNameOf (p : DirectoryPath) : String := (fileName p).getD ""

/-- Split a character list on `/`, keeping empty chunks (they are filtered
away by `parsePath`, matching Rust's treatment of repeated separators). -/
def splitParts : List Char → List Char → List String
  | [], cur => [String.mk cur.reverse]
  | c :: rest, cur =>
      if c = '/' then String.mk cur.reverse :: splitParts rest []
      else splitParts rest (c :: cur)

/-- Turn the non-empty chunks of a path string into components: `.` is kept
only as the first component of a relative path, `..` becomes a parent
component, anything else a normal component. -/
def parseParts : Bool → List String → List Component
  | _, [] => []
  | isFirst, p :: ps =>
      if p = "." then
        (if isFirst then [Component.curDir] else []) ++ parseParts false ps
      else if p = ".." then Component.parentDir :: parseParts false ps
      else Component.normal p :: parseParts false ps

/-- Rust `Path::components`-style normalization of a path string: drops
empty chunks and interior `.` chunks, keeps a leading `.`, records a
leading `/` as the root component. -/
def parsePath (s : String) : DirectoryPath :=
  let cs := s.toList
  let isAbs : Bool := match cs with | '/' :: _ => true | _ => false
  let parts := (splitParts cs []).filter (fun p => p ≠ "")
  if isAbs then Component.rootDir :: parseParts false parts
  else parseParts true parts

/-- A filesystem snapshot entry: a readable directory with its children, a
non-directory, or an entry whose traversal fails (permission error,
race-deleted) and is dropped by `filter_map(|e| e.ok())`. Symbolic links
are already resolved (the walk follows links). -/
inductive FsEntry where
  | dir (name : String) (children : List FsEntry) : FsEntry
  | file (name : String) : FsEntry
  | unreadable (name : String) : FsEntry
deriving Repr

/-- The name of an entry. -/
def FsEntry.name : FsEntry → String
  | FsEntry.dir n _ => n
  | FsEntry.file n => n
  | FsEntry.unreadable n => n

/-- One `walkdir::DirEntry` as the classifier observes it: its full path,
`file_type().is_dir()`, and `file_name().to_string_lossy()`. -/
structure WalkEntry where
  path : DirectoryPath
  isDir : Bool
  fname : String
deriving DecidableEq, Repr

mutual
/-- Pre-order traversal of one entry under base path `base`, as `WalkDir`
yields it after `filter_map(|e| e.ok())`: a directory first, then its
contents; an unreadable entry yields nothing. -/
def walkEntry (base : DirectoryPath) : FsEntry → List WalkEntry
  | FsEntry.dir n cs =>
      ⟨base ++ [Component.normal n], true, n⟩ ::
        walkList (base ++ [Component.normal n]) cs
  | FsEntry.file n => [⟨base ++ [Component.normal n], false, n⟩]
  | FsEntry.unreadable _ => []

/-- Pre-order traversal of a list of sibling entries, in directory order. -/
def walkList (base : DirectoryPath) : List FsEntry → List WalkEntry
  | [] => []
  | e :: es => walkEntry base e ++ walkList base es
end

/-- The `file_name()` of the walk's depth-0 root entry: `walkdir` falls
back to the full path when the path has no file name, and the program's
only search root is `"./"`. -/
def rootFname (p : DirectoryPath) : String := (fileName p).getD "./"

/-- The full walk of `search_path`: `WalkDir` yields the search root itself
first (as a directory), then its contents pre-order. `tree` is the list of
children of the search root. -/
def rootWalk (searchPath : DirectoryPath) (tree : List FsEntry) : List WalkEntry :=
  ⟨searchPath, true, rootFname searchPath⟩ :: walkList searchPath tree

/-- `find_moved_directory` from src/main.rs: the first entry of the walk
that is a directory whose file name equals `dir_name`, mapped to its path. -/
def find_moved_directory (dir_name : String) (searchPath : DirectoryPath)
    (tree : List FsEntry) : Option DirectoryPath :=
  ((rootWalk searchPath tree).find? (fun e => e.isDir && e.fname == dir_name)).map
    WalkEntry.path

/-- The entry of a given name among a directory's children, if any. -/
def findChild (n : String) : List FsEntry → Option FsEntry
  | [] => none
  | e :: es => if e.name = n then some e else findChild n es

/-- OS lookup for `is_dir` along a list of names under a directory's
children: every prefix must resolve to a readable directory. -/
def lookupIsDir : List String → List FsEntry → Bool
  | [], _ => true
  | n :: ns, entries =>
      match findChild n entries with
      | some (FsEntry.dir _ cs) => lookupIsDir ns cs
      | _ => false

/-- View a path as a list of plain names, when every component is normal. -/
def asNames : DirectoryPath → Option (List String)
  | [] => some []
  | Component.normal n :: rest => (asNames rest).map (fun ns => n :: ns)
  | _ :: _ => none

/-- `path.is_dir()` against the snapshot rooted at the watch root: the path
must be `./`-relative with normal components that resolve to a directory. -/
def pathIsDir (tree : List FsEntry) (p : DirectoryPath) : Bool :=
  match p with
  | Component.curDir :: rest =>
      match asNames rest with
      | some ns => lookupIsDir ns tree
      | none => false
  | _ => false

/-- The classified outputs of the loop (the `println!` reports). -/
inductive ClassifiedEvent where
  | topLevelCreated (path : DirectoryPath) : ClassifiedEvent
  | topLevelMoved (dirName : String) (newPath : DirectoryPath) : ClassifiedEvent
  | topLevelRemoved (path : DirectoryPath) : ClassifiedEvent
  | watchError (diag : String) : ClassifiedEvent
deriving DecidableEq, Repr

/-- A raw notification from the notify layer, as matched in `main`. -/
inductive RawEvent where
  | create (paths : List DirectoryPath) : RawEvent
  | remove (paths : List DirectoryPath) : RawEvent
  | other (paths : List DirectoryPath) : RawEvent
  | error (diag : String) : RawEvent
deriving DecidableEq, Repr

/-- The `EventKind::Create` per-path body: when the path is a directory at
top level, report it unless it is the noise placeholder, and always insert
it into `known_directories`. -/
def processCreatePath (tree : List FsEntry) (known : Finset DirectoryPath)
    (path : DirectoryPath) : Finset DirectoryPath × List ClassifiedEvent :=
  if pathIsDir tree path = true ∧ parent path = some watchPath then
    (insert path known,
      if path ≠ noisePath then [ClassifiedEvent.topLevelCreated path] else [])
  else (known, [])

/-- The `EventKind::Remove` per-path body: known paths are resolved through
`find_moved_directory`; a hit reports a move unconditionally, removes the
old path and re-inserts the new path only at top level; a miss reports a
removal unless squelched and removes the path; unknown paths are ignored. -/
def processRemovePath (tree : List FsEntry) (known : Finset DirectoryPath)
    (path : DirectoryPath) : Finset DirectoryPath × List ClassifiedEvent :=
  if path ∈ known then
    match find_moved_directory (dirNameOf path) watchPath tree with
    | some new_path =>
        (if parent new_path = some watchPath then
            insert new_path (known.erase path)
          else known.erase path,
          [ClassifiedEvent.topLevelMoved (dirNameOf path) new_path])
    | none =>
        (known.erase path,
          if path ≠ noisePath then [ClassifiedEvent.topLevelRemoved path] else [])
  else (known, [])

/-- Process the paths of one event in delivery order, threading the set and
concatenating the emitted reports. -/
def processPaths
    (step : Finset DirectoryPath → DirectoryPath →
      Finset DirectoryPath × List ClassifiedEvent) :
    Finset DirectoryPath → List DirectoryPath →
      Finset DirectoryPath × List ClassifiedEvent
  | known, [] => (known, [])
  | known, p :: ps =>
      let r := step known p
      let rest := processPaths step r.1 ps
      (rest.1, r.2 ++ rest.2)

/-- One iteration of the event loop: dispatch on the event kind, against
the filesystem snapshot `tree` current when the event is processed. -/
def processEvent (tree : List FsEntry) (known : Finset DirectoryPath) :
    RawEvent → Finset DirectoryPath × List ClassifiedEvent
  | RawEvent.create ps => processPaths (processCreatePath tree) known ps
  | RawEvent.remove ps => processPaths (processRemovePath tree) known ps
  | RawEvent.other _ => (known, [])
  | RawEvent.error d => (known, [ClassifiedEvent.watchError d])

/-- The whole `for e in rx` loop over a finite schedule, each event paired
with the filesystem snapshot at its processing time. -/
def runLoop (known : Finset DirectoryPath) :
    List (List FsEntry × RawEvent) → Finset DirectoryPath × List ClassifiedEvent
  | [] => (known, [])
  | (tree, ev) :: rest =>
      let r := processEvent tree known ev
      let rs := runLoop r.1 rest
      (rs.1, r.2 ++ rs.2)

/-- The initial `read_dir("./")` seeding scan: each entry whose path is a
directory is inserted as `./name` (`read_dir` joins the read path with the
entry's file name); errors and non-directories are skipped. -/
def initialScan (entries : List FsEntry) : Finset DirectoryPath :=
  entries.foldl
    (fun k e =>
      match e with
      | FsEntry.dir n _ => insert [Component.curDir, Component.normal n] k
      | _ => k)
    ∅

end Dirmon

namespace Dirmon

/-- C2: a create notification for a directory at top level with a
non-placeholder name yields exactly one `TopLevelCreated` report and
inserts the path; a create for a non-directory or non-top-level path is a
no-op. -/
theorem create_classification (tree : List FsEntry) (known : Finset DirectoryPath)
    (p : DirectoryPath) :
    (pathIsDir tree p = true → parent p = some watchPath → p ≠ noisePath →
      processCreatePath tree known p =
        (insert p known, [ClassifiedEvent.topLevelCreated p]) ∧
      p ∈ (processCreatePath tree known p).1) ∧
    (¬ (pathIsDir tree p = true ∧ parent p = some watchPath) →
      processCreatePath tree known p = (known, [])) := by
  constructor
  · intro hdir htop hnoise
    have h : processCreatePath tree known p =
        (insert p known, [ClassifiedEvent.topLevelCreated p]) := by
      unfold processCreatePath
      rw [if_pos ⟨hdir, htop⟩, if_pos hnoise]
    exact ⟨h, by rw [h]; exact Finset.mem_insert_self p known⟩
  · intro h
    unfold processCreatePath
    rw [if_neg h]

/-- C2 witness: creating `./a` while `a` is a top-level directory of the
snapshot reports it and inserts it. -/
theorem create_classification_witness :
    processCreatePath [FsEntry.dir "a" []] ∅ [Component.curDir, Component.normal "a"] =
      (insert [Component.curDir, Component.normal "a"] ∅,
        [ClassifiedEvent.topLevelCreated [Component.curDir, Component.normal "a"]]) ∧
    [Component.curDir, Component.normal "a"] ∈
      (processCreatePath [FsEntry.dir "a" []] ∅
        [Component.curDir, Component.normal "a"]).1 :=
  (create_classification [FsEntry.dir "a" []] ∅
    [Component.curDir, Component.normal "a"]).1 (by decide) (by decide) (by decide)

/-- C3: removing a known path with a non-placeholder name that the
resolver cannot relocate yields exactly one `TopLevelRemoved` report and
erases the path from the set. -/
theorem true_deletion (tree : List FsEntry) (known : Finset DirectoryPath)
    (p : DirectoryPath) (hmem : p ∈ known) (hnoise : p ≠ noisePath)
    (hfind : find_moved_directory (dirNameOf p) watchPath tree = none) :
    processRemovePath tree known p =
      (known.erase p, [ClassifiedEvent.topLevelRemoved p]) ∧
    p ∉ (processRemovePath tree known p).1 := by
  have h : processRemovePath tree known p =
      (known.erase p, [ClassifiedEvent.topLevelRemoved p]) := by
    unfold processRemovePath
    rw [if_pos hmem, hfind]
    simp [hnoise]
  exact ⟨h, by rw [h]; exact Finset.not_mem_erase p known⟩

/-- C3 witness: removing known `./a` against an empty snapshot reports the
removal and erases it. -/
theorem true_deletion_witness :
    processRemovePath []
        (insert [Component.curDir, Component.normal "a"] (∅ : Finset DirectoryPath))
        [Component.curDir, Component.normal "a"] =
      ((insert [Component.curDir, Component.normal "a"]
          (∅ : Finset DirectoryPath)).erase [Component.curDir, Component.normal "a"],
        [ClassifiedEvent.topLevelRemoved [Component.curDir, Component.normal "a"]]) ∧
    [Component.curDir, Component.normal "a"] ∉
      (processRemovePath []
        (insert [Component.curDir, Component.normal "a"] (∅ : Finset DirectoryPath))
        [Component.curDir, Component.normal "a"]).1 :=
  true_deletion []
    (insert [Component.curDir, Component.normal "a"] (∅ : Finset DirectoryPath))
    [Component.curDir, Component.normal "a"] (by decide) (by decide) (by decide)

/-- C8: a remove notification for a path not in the set is a complete
no-op: no report, set unchanged. -/
theorem unknown_remove_ignored (tree : List FsEntry) (known : Finset DirectoryPath)
    (p : DirectoryPath) (h : p ∉ known) :
    processRemovePath tree known p = (known, []) := by
  unfold processRemovePath
  rw [if_neg h]

/-- C8 witness: removing `./a` from the empty set changes nothing. -/
theorem unknown_remove_ignored_witness :
    processRemovePath [] ∅ [Component.curDir, Component.normal "a"] = (∅, []) :=
  unknown_remove_ignored [] ∅ [Component.curDir, Component.normal "a"] (by decide)

/-- C9: a delivery error is reported as exactly one `WatchError`, mutates
nothing, and the loop goes on to process the remaining schedule. -/
theorem watch_error_handling :
    (∀ (tree : List FsEntry) (known : Finset DirectoryPath) (d : String),
      processEvent tree known (RawEvent.error d) =
        (known, [ClassifiedEvent.watchError d])) ∧
    (∀ (known : Finset DirectoryPath) (tree : List FsEntry) (d : String)
        (rest : List (List FsEntry × RawEvent)),
      runLoop known ((tree, RawEvent.error d) :: rest) =
        ((runLoop known rest).1,
          ClassifiedEvent.watchError d :: (runLoop known rest).2)) := by
  constructor
  · intro tree known d
    rfl
  · intro known tree d rest
    simp [runLoop, processEvent]

end Dirmon

namespace Dirmon

/-- C1: removing a known path that the resolver relocates elsewhere emits
exactly one `TopLevelMoved` — with no squelch condition — erases the old
path, and the new path is a member of the resulting set iff its parent is
the watch root. -/
theorem move_detection (tree : List FsEntry) (known : Finset DirectoryPath)
    (p new_path : DirectoryPath)
    (hmem : p ∈ known)
    (hfind : find_moved_directory (dirNameOf p) watchPath tree = some new_path)
    (hne : new_path ≠ p)
    (hinv : ∀ q ∈ known, parent q = some watchPath) :
    (processRemovePath tree known p).2 =
      [ClassifiedEvent.topLevelMoved (dirNameOf p) new_path] ∧
    (processRemovePath tree known p).1 =
      (if parent new_path = some watchPath then insert new_path (known.erase p)
        else known.erase p) ∧
    p ∉ (processRemovePath tree known p).1 ∧
    (new_path ∈ (processRemovePath tree known p).1 ↔
      parent new_path = some watchPath) := by
  have h : processRemovePath tree known p =
      (if parent new_path = some watchPath then insert new_path (known.erase p)
        else known.erase p,
        [ClassifiedEvent.topLevelMoved (dirNameOf p) new_path]) := by
    unfold processRemovePath
    rw [if_pos hmem, hfind]
  rw [h]
  refine ⟨rfl, rfl, ?_, ?_⟩
  · by_cases hp : parent new_path = some watchPath
    · rw [if_pos hp]
      intro hin
      rcases Finset.mem_insert.mp hin with h1 | h2
      · exact hne h1.symm
      · exact Finset.not_mem_erase p known h2
    · rw [if_neg hp]
      exact Finset.not_mem_erase p known
  · by_cases hp : parent new_path = some watchPath
    · rw [if_pos hp]
      exact ⟨fun _ => hp, fun _ => Finset.mem_insert_self new_path (known.erase p)⟩
    · rw [if_neg hp]
      exact ⟨fun hin => absurd (hinv new_path (Finset.mem_of_mem_erase hin)) hp,
        fun hpp => absurd hpp hp⟩

/-- C1 witness: known `./a` removed while the snapshot holds `./Sub/a`:
one move report, old path gone, new path not re-inserted since `./Sub` is
not the watch root. -/
theorem move_detection_witness :
    (processRemovePath [FsEntry.dir "Sub" [FsEntry.dir "a" []]]
        (insert [Component.curDir, Component.normal "a"] (∅ : Finset DirectoryPath))
        [Component.curDir, Component.normal "a"]).2 =
      [ClassifiedEvent.topLevelMoved
        (dirNameOf [Component.curDir, Component.normal "a"])
        [Component.curDir, Component.normal "Sub", Component.normal "a"]] ∧
    (processRemovePath [FsEntry.dir "Sub" [FsEntry.dir "a" []]]
        (insert [Component.curDir, Component.normal "a"] (∅ : Finset DirectoryPath))
        [Component.curDir, Component.normal "a"]).1 =
      (if parent [Component.curDir, Component.normal "Sub", Component.normal "a"] =
          some watchPath then
        insert [Component.curDir, Component.normal "Sub", Component.normal "a"]
          ((insert [Component.curDir, Component.normal "a"]
            (∅ : Finset DirectoryPath)).erase [Component.curDir, Component.normal "a"])
      else
        (insert [Component.curDir, Component.normal "a"]
          (∅ : Finset DirectoryPath)).erase [Component.curDir, Component.normal "a"]) ∧
    [Component.curDir, Component.normal "a"] ∉
      (processRemovePath [FsEntry.dir "Sub" [FsEntry.dir "a" []]]
        (insert [Component.curDir, Component.normal "a"] (∅ : Finset DirectoryPath))
        [Component.curDir, Component.normal "a"]).1 ∧
    ([Component.curDir, Component.normal "Sub", Component.normal "a"] ∈
      (processRemovePath [FsEntry.dir "Sub" [FsEntry.dir "a" []]]
        (insert [Component.curDir, Component.normal "a"] (∅ : Finset DirectoryPath))
        [Component.curDir, Component.normal "a"]).1 ↔
      parent [Component.curDir, Component.normal "Sub", Component.normal "a"] =
        some watchPath) :=
  move_detection [FsEntry.dir "Sub" [FsEntry.dir "a" []]]
    (insert [Component.curDir, Component.normal "a"] (∅ : Finset DirectoryPath))
    [Component.curDir, Component.normal "a"]
    [Component.curDir, Component.normal "Sub", Component.normal "a"]
    (by decide) (by decide) (by decide) (by decide)

/-- C4: the placeholder path is squelched from create and unresolved-remove
reports, while the set is still mutated exactly as for any other name:
inserted on create, erased on unresolved remove. -/
theorem placeholder_squelch (tree : List FsEntry) (known : Finset DirectoryPath) :
    (pathIsDir tree noisePath = true →
      processCreatePath tree known noisePath = (insert noisePath known, [])) ∧
    (noisePath ∈ known →
      find_moved_directory (dirNameOf noisePath) watchPath tree = none →
      processRemovePath tree known noisePath = (known.erase noisePath, [])) := by
  constructor
  · intro hdir
    unfold processCreatePath
    rw [if_pos ⟨hdir, by decide⟩]
    simp
  · intro hmem hfind
    unfold processRemovePath
    rw [if_pos hmem, hfind]
    simp

/-- C4 witness: creating `./New folder` (present as a top-level directory
in the snapshot) inserts it silently, and removing it against an empty
snapshot erases it silently. -/
theorem placeholder_squelch_witness :
    processCreatePath [FsEntry.dir "New folder" []] (∅ : Finset DirectoryPath)
        noisePath =
      (insert noisePath (∅ : Finset DirectoryPath), []) ∧
    processRemovePath [] (insert noisePath (∅ : Finset DirectoryPath)) noisePath =
      ((insert noisePath (∅ : Finset DirectoryPath)).erase noisePath, []) :=
  ⟨(placeholder_squelch [FsEntry.dir "New folder" []] (∅ : Finset DirectoryPath)).1
      (by decide),
    (placeholder_squelch [] (insert noisePath (∅ : Finset DirectoryPath))).2
      (by decide) (by decide)⟩

/-- Generic fact: `find?` returns the head of the filtered list. -/
theorem find_eq_head_filter {α : Type} (p : α → Bool) :
    ∀ l : List α, l.find? p = (l.filter p).head?
  | [] => rfl
  | a :: l => by
    by_cases h : p a = true
    · rw [List.find?_cons_of_pos _ h, List.filter_cons_of_pos h]
      rfl
    · rw [List.find?_cons_of_neg _ (by simpa using h),
        List.filter_cons_of_neg (by simpa using h)]
      exact find_eq_head_filter p l

/-- C6: `find_moved_directory` returns the path of the first entry of the
pre-order walk that is a directory with the requested base name (so `none`
exactly when no such directory exists in the walk), and unreadable entries
contribute nothing to the walk (they are skipped, never aborting it). -/
theorem resolver_first_match :
    (∀ (name : String) (searchPath : DirectoryPath) (tree : List FsEntry),
      find_moved_directory name searchPath tree =
        (((rootWalk searchPath tree).filter
          (fun e => e.isDir && e.fname == name)).head?).map WalkEntry.path) ∧
    (∀ (base : DirectoryPath) (n : String) (rest : List FsEntry),
      walkList base (FsEntry.unreadable n :: rest) = walkList base rest) := by
  constructor
  · intro name searchPath tree
    unfold find_moved_directory
    rw [find_eq_head_filter]
  · intro base n rest
    rw [walkList, walkEntry, List.nil_append]

end Dirmon

namespace Dirmon

/-- Helper: the create branch preserves the top-level invariant. -/
theorem processCreatePath_inv (tree : List FsEntry) (known : Finset DirectoryPath)
    (p : DirectoryPath) (h : ∀ q ∈ known, parent q = some watchPath) :
    ∀ q ∈ (processCreatePath tree known p).1, parent q = some watchPath := by
  unfold processCreatePath
  by_cases hc : pathIsDir tree p = true ∧ parent p = some watchPath
  · rw [if_pos hc]
    intro q hq
    rcases Finset.mem_insert.mp hq with h1 | h2
    · subst h1; exact hc.2
    · exact h q h2
  · rw [if_neg hc]
    exact h

/-- Helper: the remove branch preserves the top-level invariant. -/
theorem processRemovePath_inv (tree : List FsEntry) (known : Finset DirectoryPath)
    (p : DirectoryPath) (h : ∀ q ∈ known, parent q = some watchPath) :
    ∀ q ∈ (processRemovePath tree known p).1, parent q = some watchPath := by
  by_cases hmem : p ∈ known
  · cases hf : find_moved_directory (dirNameOf p) watchPath tree with
    | some new_path =>
        have e : processRemovePath tree known p =
            (if parent new_path = some watchPath then
                insert new_path (known.erase p)
              else known.erase p,
              [ClassifiedEvent.topLevelMoved (dirNameOf p) new_path]) := by
          unfold processRemovePath
          rw [if_pos hmem, hf]
        rw [e]
        by_cases hp : parent new_path = some watchPath
        · rw [if_pos hp]
          intro q hq
          rcases Finset.mem_insert.mp hq with h1 | h2
          · subst h1; exact hp
          · exact h q (Finset.mem_of_mem_erase h2)
        · rw [if_neg hp]
          intro q hq
          exact h q (Finset.mem_of_mem_erase hq)
    | none =>
        have e : processRemovePath tree known p =
            (known.erase p,
              if p ≠ noisePath then [ClassifiedEvent.topLevelRemoved p] else []) := by
          unfold processRemovePath
          rw [if_pos hmem, hf]
        rw [e]
        intro q hq
        exact h q (Finset.mem_of_mem_erase hq)
  · have e : processRemovePath tree known p = (known, []) := by
      unfold processRemovePath
      rw [if_neg hmem]
    rw [e]
    exact h

/-- Helper: folding an invariant-preserving per-path step over the paths of
one event preserves the invariant. -/
theorem processPaths_inv
    (step : Finset DirectoryPath → DirectoryPath →
      Finset DirectoryPath × List ClassifiedEvent)
    (hstep : ∀ (known : Finset DirectoryPath) (p : DirectoryPath),
      (∀ q ∈ known, parent q = some watchPath) →
      ∀ q ∈ (step known p).1, parent q = some watchPath) :
    ∀ (ps : List DirectoryPath) (known : Finset DirectoryPath),
      (∀ q ∈ known, parent q = some watchPath) →
      ∀ q ∈ (processPaths step known ps).1, parent q = some watchPath
  | [], _, h => h
  | p :: ps, known, h =>
      processPaths_inv step hstep ps (step known p).1 (hstep known p h)

/-- Helper: the seeding fold inserts only `./name` paths, so it builds a
set satisfying the top-level invariant from any set that satisfies it. -/
theorem initialScan_fold_inv (entries : List FsEntry) :
    ∀ (k : Finset DirectoryPath), (∀ q ∈ k, parent q = some watchPath) →
      ∀ q ∈ entries.foldl
        (fun k e =>
          match e with
          | FsEntry.dir n _ => insert [Component.curDir, Component.normal n] k
          | _ => k) k,
        parent q = some watchPath := by
  induction entries with
  | nil => intro k h; exact h
  | cons e es ih =>
      intro k h
      rw [List.foldl_cons]
      apply ih
      cases e with
      | dir n cs =>
          intro q hq
          rcases Finset.mem_insert.mp hq with h1 | h2
          · subst h1; rfl
          · exact h q h2
      | file n => exact h
      | unreadable n => exact h

/-- C5: every member of the set is a direct child of the watch root: the
seeding scan establishes the invariant and every loop transition preserves
it (the create branch and the move re-insertion both check the parent). -/
theorem top_level_invariant :
    (∀ entries : List FsEntry,
      ∀ q ∈ initialScan entries, parent q = some watchPath) ∧
    (∀ (tree : List FsEntry) (known : Finset DirectoryPath) (ev : RawEvent),
      (∀ q ∈ known, parent q = some watchPath) →
      ∀ q ∈ (processEvent tree known ev).1, parent q = some watchPath) := by
  constructor
  · intro entries
    exact initialScan_fold_inv entries ∅ (fun q hq => absurd hq (Finset.not_mem_empty q))
  · intro tree known ev h
    cases ev with
    | create ps => exact processPaths_inv _ (processCreatePath_inv tree) ps known h
    | remove ps => exact processPaths_inv _ (processRemovePath_inv tree) ps known h
    | other ps => exact h
    | error d => exact h

/-- C5 witness: after creating `./a` (a directory of the snapshot) from the
empty set, `./a` is a member and its parent is the watch root. -/
theorem top_level_invariant_witness :
    [Component.curDir, Component.normal "a"] ∈
      (processEvent [FsEntry.dir "a" []] (∅ : Finset DirectoryPath)
        (RawEvent.create [[Component.curDir, Component.normal "a"]])).1 ∧
    parent [Component.curDir, Component.normal "a"] = some watchPath :=
  ⟨by decide,
    top_level_invariant.2 [FsEntry.dir "a" []] (∅ : Finset DirectoryPath)
      (RawEvent.create [[Component.curDir, Component.normal "a"]])
      (fun q hq => absurd hq (Finset.not_mem_empty q))
      [Component.curDir, Component.normal "a"] (by decide)⟩

/-- C10: when every member of the set ends in a normal component, the base
name of a known removed path is the file name itself: `file_name()` is
`Some` and `unwrap_or_default`'s default branch is unreachable, so the
name handed to the resolver is never the defaulted empty string. -/
theorem remove_dir_name_total (known : Finset DirectoryPath) (p : DirectoryPath)
    (hinv : ∀ q ∈ known, ∃ n, q.getLast? = some (Component.normal n))
    (hmem : p ∈ known) :
    some (dirNameOf p) = fileName p := by
  obtain ⟨n, hn⟩ := hinv p hmem
  have hf : fileName p = some n := by unfold fileName; rw [hn]
  rw [dirNameOf, hf]
  rfl

/-- C10 witness: for the known path `./a`, the resolver receives exactly
its file name. -/
theorem remove_dir_name_total_witness :
    some (dirNameOf [Component.curDir, Component.normal "a"]) =
      fileName [Component.curDir, Component.normal "a"] :=
  remove_dir_name_total
    (insert [Component.curDir, Component.normal "a"] (∅ : Finset DirectoryPath))
    [Component.curDir, Component.normal "a"]
    (fun q hq => ⟨"a", by
      have hq2 : q = [Component.curDir, Component.normal "a"] := by
        simpa using hq
      rw [hq2]; rfl⟩)
    (by decide)

/-- C7 counterexample: a leading current-directory component is NOT
normalized away by Rust path comparison, so the spellings `./a` and `a`
are distinct paths, and a remove notification for `a` is ignored while
`./a` is the known member: no report and no state change, where the claim
predicts the two spellings are identified. -/
theorem path_equality_counterexample :
    parsePath "./a" ≠ parsePath "a" ∧
    processRemovePath [] (insert (parsePath "./a") (∅ : Finset DirectoryPath))
        (parsePath "a") =
      (insert (parsePath "./a") (∅ : Finset DirectoryPath), []) := by
  constructor
  · decide
  · decide

/-- C7 amended: path identity is equality of normalized component
sequences — empty chunks and interior `.` chunks are dropped (`a/./b`,
`a//b`, `a/b/` all equal `a/b`, and `./New folder/` equals the noise
placeholder), but a leading current-directory component is preserved
(`./a` differs from `a`) — and the classifier's branches respect this
identity. -/
theorem path_equality_normalized :
    (parsePath "a/./b" = parsePath "a/b") ∧
    (parsePath "a/b/" = parsePath "a/b") ∧
    (parsePath "a//b" = parsePath "a/b") ∧
    (parsePath "./a" ≠ parsePath "a") ∧
    (parsePath "./New folder/" = noisePath) ∧
    (∀ (tree : List FsEntry) (known : Finset DirectoryPath) (s t : String),
      parsePath s = parsePath t →
      processRemovePath tree known (parsePath s) =
          processRemovePath tree known (parsePath t) ∧
        processCreatePath tree known (parsePath s) =
          processCreatePath tree known (parsePath t)) := by
  refine ⟨by decide, by decide, by decide, by decide, by decide, ?_⟩
  intro tree known s t h
  rw [h]
  exact ⟨rfl, rfl⟩

/-- C7 amended witness: the spellings `./New folder/` and `./New folder`
normalize identically, so the classifier treats them identically. -/
theorem path_equality_normalized_witness :
    processRemovePath [] (∅ : Finset DirectoryPath) (parsePath "./New folder/") =
        processRemovePath [] (∅ : Finset DirectoryPath)
          (parsePath "./New folder") ∧
      processCreatePath [] (∅ : Finset DirectoryPath) (parsePath "./New folder/") =
        processCreatePath [] (∅ : Finset DirectoryPath)
          (parsePath "./New folder") :=
  path_equality_normalized.2.2.2.2.2 [] (∅ : Finset DirectoryPath)
    "./New folder/" "./New folder" (by decide)

end Dirmon
